import Mathlib

/-!
Verification of the `imgcube` repository (files `src/cube.py`,
`src/rotatedcube.py`, `src/misc/rotatedcube.py`) against its natural-language
specification.

The numeric code is embedded shallowly:

* float arithmetic is modelled over a `LinearOrderedField` (instantiated at `ℚ`
  for decidable concrete evaluations and at `ℝ` for the trigonometric
  geometry);
* `numpy` grid operations become functions of the pixel indices;
* Python exceptions (`ValueError`, `IndexError`) become `Option.none`;
* `NaN` entries of the stored emission-surface table become `Option.none`
  entries of a `List (Option α)`;
* the external solvers (`curve_fit`/`minimize`, `celerite`, `emcee`,
  `eddy.annulus.ensemble`) are black boxes in the spec's own scoping and are
  modelled as abstract function parameters.
-/

set_option maxHeartbeats 1000000
set_option linter.unusedSectionVars false

section NumericHelpers

variable {α : Type} [LinearOrderedField α]

/-- Model of `np.linspace(a, b, n)`: `n` evenly spaced points from `a` to `b`
inclusive. -/
def linspace (a b : α) (n : ℕ) : List α :=
  if n ≤ 1 then (List.range n).map (fun (_ : ℕ) => a)
  else (List.range n).map (fun (i : ℕ) => a + (i : α) * (b - a) / ((n : α) - 1))

/-- Model of `np.arange(start, stop, step)` for `step > 0`: the points
`start + k * step` with `k < ⌈(stop - start) / step⌉`. -/
def arange [FloorRing α] (start stop step : α) : List α :=
  (List.range (⌈(stop - start) / step⌉).toNat).map
    (fun (k : ℕ) => start + (k : α) * step)

/-- Model of `np.average([l[1:], l[:-1]], axis=0)`: midpoints of consecutive
entries, as used to turn bin edges into bin centers. -/
def pair_means (l : List α) : List α :=
  List.zipWith (fun a b => (a + b) / 2) (l.drop 1) l.dropLast

/-- Model of `scipy.interpolate.interp1d(xs, ys, fill_value='extrapolate')`
evaluated at `t`, for an already sorted abscissa list (the repository always
interpolates over its sorted `rvals` grid).  Queries left of the first node or
right of the last node extrapolate linearly using the first, respectively
last, segment. -/
def lininterp : List (α × α) → α → α
  | [], _ => 0
  | [p], _ => p.2
  | p :: q :: rest, t =>
    if t ≤ q.1 ∨ rest = [] then p.2 + (q.2 - p.2) * (t - p.1) / (q.1 - p.1)
    else lininterp (q :: rest) t

theorem lininterp_zero (l : List (α × α)) (h : ∀ p ∈ l, p.2 = 0) (t : α) :
    lininterp l t = 0 := by
  induction l with
  | nil => simp [lininterp]
  | cons p tl ih =>
    cases tl with
    | nil => simpa [lininterp] using h p (by simp)
    | cons q rest =>
      have hp : p.2 = 0 := h p (by simp)
      have hq : q.2 = 0 := h q (by simp)
      rw [lininterp]
      split
      · simp [hp, hq]
      · exact ih (fun r hr => h r (List.mem_cons_of_mem _ hr))

theorem zip_self_map (l : List α) (f : α → α) :
    l.zip (l.map f) = l.map (fun x => (x, f x)) := by
  induction l with
  | nil => rfl
  | cons a tl ih => simp [ih]

/-- Linear interpolation through collinear sample points recovers the line:
if all nodes carry values `a * x`, the interpolant at `t` is `a * t`. -/
theorem lininterp_linear (a : α) :
    ∀ l : List α, 2 ≤ l.length → l.Chain' (· ≠ ·) → ∀ t : α,
      lininterp (l.map (fun x => (x, a * x))) t = a * t := by
  intro l
  induction l with
  | nil => simp
  | cons x tl ih =>
    cases tl with
    | nil => simp
    | cons y rest =>
      intro _ hch t
      have hxy : x ≠ y := (List.chain'_cons.mp hch).1
      have hsub : y - x ≠ 0 := sub_ne_zero.mpr (Ne.symm hxy)
      rw [List.map_cons, List.map_cons, lininterp]
      split
      · field_simp
        ring
      · rename_i hcond
        have hrest : rest ≠ [] := by
          intro hr
          exact hcond (Or.inr (by simp [hr]))
        have hlen : 2 ≤ (y :: rest).length := by
          cases rest with
          | nil => exact absurd rfl hrest
          | cons _ _ => simp [List.length_cons]
        exact ih hlen (List.chain'_cons.mp hch).2 t

end NumericHelpers

section RadialSampling

variable {α : Type} [LinearOrderedField α] [FloorRing α]

/-- Embedding of `imagecube._radial_sampling(rbins, rvals)` (src/cube.py,
lines 183-195).  `xmax` stands for `self.xaxis.max()` and `bmaj` for
`self.bmaj`.  Returns `none` on the `ValueError` raised when both `rbins` and
`rvals` are supplied, and on the `IndexError` of `np.diff(rvals)[0]` when
`rvals` has fewer than two entries. -/
def radial_sampling (xmax bmaj : α) (rbins? rvals? : Option (List α)) :
    Option (List α × List α) :=
  match rbins?, rvals? with
  | some _, some _ => none
  | none, some rv =>
    if 2 ≤ rv.length then
      let dr := (rv.getD 1 0 - rv.getD 0 0) * (1 / 2)
      let rb := linspace (rv.getD 0 0 - dr) (rv.getD (rv.length - 1) 0 + dr)
        (rv.length + 1)
      some (rb, pair_means rb)
    else none
  | some rb, none => some (rb, pair_means rb)
  | none, none =>
    let rb := (arange 0 xmax (bmaj / 4)).drop 1
    some (rb, pair_means rb)

end RadialSampling

section LogProbability

variable {α : Type} [LinearOrderedField α]

/-- Embedding of `rotatedcube._log_probability_M32(theta, ...)`
(src/rotatedcube.py, lines 249-276).  The free parameters `theta` are
`(vrot, noise, lnsigma, lnrho)`; `vkep` is the reference Keplerian velocity.
`gpll` abstracts the external `celerite` Gaussian-Process computation on the
deprojected spectrum: `none` models a `gp.compute` exception or a non-finite
log-likelihood (both of which the source maps to `-np.inf`), `some ll` a
finite log-likelihood.  The returned `none` models `-np.inf`. -/
def log_probability_M32 (vkep vrot noise lnsigma lnrho : α) (gpll : Option α) :
    Option α :=
  if 3 / 10 < |vrot - vkep| / vkep then none
  else if noise ≤ 0 then none
  else if ¬(-5 < lnsigma ∧ lnsigma < 10) then none
  else if ¬(0 ≤ lnrho ∧ lnrho ≤ 10) then none
  else match gpll with
    | none => none
    | some ll => some ll

end LogProbability

section RadialSamplingTheorems

/-- Claim C4 (confirmed): `_radial_sampling` given only the bin centers
`[1, 2, 3]` derives the bin edges `[0.5, 1.5, 2.5, 3.5]` (and returns the
centers recomputed from those edges, i.e. `[1, 2, 3]` again); given only the
bin edges `[0, 1, 2, 3]` it derives the centers `[0.5, 1.5, 2.5]`; and given
both edges and centers it fails with a validation error (`none`) before
computing anything, for every `xmax` and `bmaj`. -/
theorem radial_sampling_centers_edges_spec (xmax bmaj : ℚ) :
    radial_sampling xmax bmaj none (some [1, 2, 3]) =
      some ([1/2, 3/2, 5/2, 7/2], [1, 2, 3]) ∧
    radial_sampling xmax bmaj (some [0, 1, 2, 3]) none =
      some ([0, 1, 2, 3], [1/2, 3/2, 5/2]) ∧
    radial_sampling xmax bmaj (some [0, 1, 2, 3]) (some [1, 2, 3]) = none := by
  refine ⟨?_, ?_, ?_⟩
  · simp [radial_sampling, linspace, pair_means, List.range_succ]
    norm_num
  · simp [radial_sampling, pair_means]
    norm_num
  · simp [radial_sampling]

/-- Claim C5, counterexample: with `xmax = 1` and `bmaj = 1` the default bin
edges returned by `_radial_sampling` are `[1/4, 1/2, 3/4]`, whose first entry
is `0.25 * bmaj`, not `0`: the leading `0` edge produced by `np.arange` is
dropped by the `[1:]` slice in the source. -/
theorem radial_sampling_default_first_edge_cex :
    radial_sampling (1 : ℚ) 1 none none =
      some ([1/4, 1/2, 3/4], [3/8, 5/8]) ∧ (1/4 : ℚ) ≠ 0 := by
  constructor
  · have hceil : (⌈((1 : ℚ) - 0) / (1 / 4)⌉).toNat = 4 := by norm_num; decide
    simp [radial_sampling, arange, pair_means, hceil, List.range_succ]
    norm_num
  · norm_num

/-- Claim C5 (corrected): when neither bin edges nor bin centers are supplied,
`_radial_sampling` returns uniform bin edges of width `0.25 * bmaj` whose
`k`-th edge is `(k + 1) * 0.25 * bmaj`: the first returned edge is
`0.25 * bmaj` (not `0`, which `np.arange` produced but the `[1:]` slice
drops), every edge is positive and strictly below the maximum position-axis
extent `xmax`. -/
theorem radial_sampling_default_edges {α : Type} [LinearOrderedField α]
    [FloorRing α] (xmax bmaj : α) (hb : 0 < bmaj) (hx : bmaj / 4 < xmax) :
    ∃ rb, radial_sampling xmax bmaj none none = some (rb, pair_means rb) ∧
      rb = (List.range ((⌈xmax / (bmaj / 4)⌉).toNat - 1)).map
        (fun (k : ℕ) => ((k : α) + 1) * (bmaj / 4)) ∧
      rb.headD 0 = bmaj / 4 ∧
      ∀ e ∈ rb, 0 < e ∧ e < xmax := by
  have hstep : 0 < bmaj / 4 := by positivity
  set q : α := xmax / (bmaj / 4) with hq
  have hq1 : 1 < q := (one_lt_div hstep).mpr hx
  have hceil : 2 ≤ ⌈q⌉ := by
    have h1 : (1 : ℤ) < ⌈q⌉ := Int.lt_ceil.mpr (by exact_mod_cast hq1)
    omega
  set n : ℕ := (⌈q⌉).toNat with hn
  have hn2 : 2 ≤ n := by omega
  obtain ⟨m, hm⟩ : ∃ m, n = m + 1 := ⟨n - 1, by omega⟩
  have harange : arange (0 : α) xmax (bmaj / 4) =
      (List.range n).map (fun (k : ℕ) => 0 + (k : α) * (bmaj / 4)) := by
    simp only [arange, hn, hq, sub_zero]
  have hdrop : (arange (0 : α) xmax (bmaj / 4)).drop 1 =
      (List.range m).map (fun (k : ℕ) => ((k : α) + 1) * (bmaj / 4)) := by
    rw [harange, hm, List.range_succ_eq_map, List.map_cons, List.drop_one,
      List.tail_cons, List.map_map]
    refine List.map_congr_left (fun k _ => ?_)
    simp only [Function.comp_apply, Nat.succ_eq_add_one]
    push_cast
    ring
  refine ⟨(arange (0 : α) xmax (bmaj / 4)).drop 1, rfl,
    by rw [hdrop, hm]; simp, ?_, ?_⟩
  · rw [hdrop]
    have hm1 : 1 ≤ m := by omega
    obtain ⟨m', hm'⟩ : ∃ m', m = m' + 1 := ⟨m - 1, by omega⟩
    rw [hm', List.range_succ_eq_map, List.map_cons]
    simp
  · intro e he
    rw [hdrop] at he
    obtain ⟨k, hk, rfl⟩ := List.mem_map.mp he
    have hkm : k < m := List.mem_range.mp hk
    constructor
    · positivity
    · have hkn : (k : α) + 1 ≤ (n : α) - 1 := by
        have : (k : ℕ) + 1 ≤ n - 1 := by omega
        have h2 : ((k + 1 : ℕ) : α) ≤ ((n - 1 : ℕ) : α) := by exact_mod_cast this
        push_cast at h2
        rw [Nat.cast_sub (by omega)] at h2
        push_cast at h2
        linarith
      have hceil_lt : (⌈q⌉ : α) < q + 1 := Int.ceil_lt_add_one q
      have hnq : (n : α) = (⌈q⌉ : α) := by
        rw [hn]
        exact_mod_cast Int.toNat_of_nonneg (by omega)
      have hlt : (n : α) - 1 < q := by
        rw [hnq]; linarith
      calc ((k : α) + 1) * (bmaj / 4) ≤ ((n : α) - 1) * (bmaj / 4) :=
            mul_le_mul_of_nonneg_right hkn (le_of_lt hstep)
        _ < q * (bmaj / 4) := by
            exact mul_lt_mul_of_pos_right hlt hstep
        _ = xmax := by
            rw [hq]
            field_simp

/-- Claim C5, witness: the corrected statement applied at `xmax = 1`,
`bmaj = 1` over `ℚ`. -/
theorem radial_sampling_default_edges_witness :
    (0 : ℚ) < 1 ∧ (1 : ℚ) / 4 < 1 ∧
    ∃ rb, radial_sampling (1 : ℚ) 1 none none = some (rb, pair_means rb) ∧
      rb = (List.range ((⌈(1 : ℚ) / ((1 : ℚ) / 4)⌉).toNat - 1)).map
        (fun (k : ℕ) => ((k : ℚ) + 1) * ((1 : ℚ) / 4)) ∧
      rb.headD 0 = (1 : ℚ) / 4 ∧
      ∀ e ∈ rb, 0 < e ∧ e < 1 :=
  ⟨by norm_num, by norm_num,
    radial_sampling_default_edges (1 : ℚ) 1 (by norm_num) (by norm_num)⟩

end RadialSamplingTheorems

section LogProbabilityTheorems

theorem ite_none_iff_or {β : Type} (c : Prop) [Decidable c] (x : Option β) :
    (if c then none else x) = none ↔ c ∨ x = none := by
  split_ifs with h <;> simp [h]

/-- Claim C6 (corrected): `_log_probability_M32` returns `-inf` (`none`)
exactly when the candidate rotation velocity deviates from the reference by
more than 30 percent in relative terms, or the noise is nonpositive, or the
log kernel amplitude lies outside the OPEN interval `(-5, 10)` (the source
uses strict comparisons `-5.0 < lnsigma < 10.`, so the endpoints are
rejected, unlike the closed interval of the claim), or the log length-scale
lies outside the closed interval `[0, 10]`, or the external Gaussian-Process
computation itself fails or produces a non-finite log-likelihood. -/
theorem log_probability_M32_reject_iff {α : Type} [LinearOrderedField α]
    (vkep vrot noise lnsigma lnrho : α) (gpll : Option α) :
    log_probability_M32 vkep vrot noise lnsigma lnrho gpll = none ↔
      (3 / 10 < |vrot - vkep| / vkep ∨ noise ≤ 0 ∨ lnsigma ≤ -5 ∨
        10 ≤ lnsigma ∨ lnrho < 0 ∨ 10 < lnrho ∨ gpll = none) := by
  unfold log_probability_M32
  rcases gpll with _ | ll <;>
    rw [ite_none_iff_or, ite_none_iff_or, ite_none_iff_or, ite_none_iff_or] <;>
    simp only [not_and_or, not_lt, not_le] <;>
    tauto

/-- Claim C6, counterexample: at the boundary point `lnsigma = -5` (with
`vrot = vkep = 1`, `noise = 1`, `lnrho = 0` and a well-posed finite
Gaussian-Process log-likelihood) every prior of the claim is satisfied --
in particular `-5` lies inside the claim's closed interval `[-5, 10]` --
yet the code returns `-inf` (`none`), because its amplitude prior is
strict. -/
theorem log_probability_M32_boundary_cex :
    log_probability_M32 (1 : ℚ) 1 1 (-5) 0 (some 0) = none ∧
    |(1 : ℚ) - 1| / 1 ≤ 3 / 10 ∧ (0 : ℚ) < 1 ∧
    ((-5 : ℚ) ≤ -5 ∧ (-5 : ℚ) ≤ 10) ∧ ((0 : ℚ) ≤ 0 ∧ (0 : ℚ) ≤ 10) := by
  refine ⟨by norm_num [log_probability_M32], by norm_num, by norm_num,
    by norm_num, by norm_num⟩

end LogProbabilityTheorems

section RotationSweep

variable {α : Type} [LinearOrderedField α] [DecidableEq α]

/-- Result recorded for one radial bin of the rotation sweep.  For the `dV`
method the source appends a float (modelled as `some v`) or `np.nan`
(modelled as `none`); for the `GP` method it appends a `(3, 4)` percentile
array (`some m`) or a NaN-filled `(3, 4)` array (`none`). -/
inductive AnnulusResult (α : Type) where
  | dV (v : Option α)
  | gp (m : Option (List (List α)))
deriving DecidableEq

/-- Model of `np.nansum(spectra)`: the sum of all entries, with NaN entries
(`none`) counted as `0`. -/
def nansum (spectra : List (List (Option α))) : α :=
  (spectra.map (fun s => (s.map (fun v => v.getD 0)).sum)).sum

/-- Embedding of one iteration of the annulus loop of
`rotatedcube.get_rotation_profile` in src/misc/rotatedcube.py (lines
118-176).  The annulus extraction (`get_annulus`, external `eddy` package)
has already produced `spectra` and `theta`; `vkep` is
`projected_vkep(rpnts[r-1])`.  The two solvers `get_vrot_dV` and
`get_vrot_GP` are the external `eddy.annulus.ensemble` methods, abstract
here; a `none` from `get_vrot_GP` models the exception that the source's
`try/except` converts into `np.zeros((3, 4))`. -/
def get_rotation_profile_step_misc (method_dv : Bool)
    (get_vrot_dV : List (List (Option α)) → List α → α → α)
    (get_vrot_GP : List (List (Option α)) → List α → α → Option (List (List α)))
    (spectra : List (List (Option α))) (theta : List α) (vkep : α) :
    AnnulusResult α :=
  if theta.length < 2 then (if method_dv then .dV none else .gp none)
  else if nansum spectra = 0 then (if method_dv then .dV none else .gp none)
  else if method_dv then .dV (some (get_vrot_dV spectra theta vkep))
  else match get_vrot_GP spectra theta vkep with
    | none => .gp (some (List.replicate 3 (List.replicate 4 0)))
    | some m => .gp (some m)

/-- Embedding of the full annulus loop of `get_rotation_profile` in
src/misc/rotatedcube.py: one result per radial bin, in bin order.  Each
element of `annuli` is the `(spectra, theta, vkep)` data of one bin. -/
def get_rotation_profile_misc (method_dv : Bool)
    (get_vrot_dV : List (List (Option α)) → List α → α → α)
    (get_vrot_GP : List (List (Option α)) → List α → α → Option (List (List α)))
    (annuli : List (List (List (Option α)) × List α × α)) :
    List (AnnulusResult α) :=
  annuli.map (fun a =>
    get_rotation_profile_step_misc method_dv get_vrot_dV get_vrot_GP
      a.1 a.2.1 a.2.2)

/-- Embedding of one iteration of the annulus loop of
`rotatedcube.get_rotation_profile` in src/rotatedcube.py (lines 160-176).
This variant has no guard at all: it dispatches every annulus straight to
`_get_vrot_from_width` or `_get_vrot_from_GP` (both abstracted). -/
def get_rotation_profile_step_main (method_dv : Bool)
    (get_vrot_from_width : List (List (Option α)) → List α → α)
    (get_vrot_from_GP : List (List (Option α)) → List α → α → List (List α))
    (spectra : List (List (Option α))) (theta : List α) (vkep : α) :
    AnnulusResult α :=
  if method_dv then .dV (some (get_vrot_from_width spectra theta))
  else .gp (some (get_vrot_from_GP spectra theta vkep))

/-- Embedding of the full annulus loop of `get_rotation_profile` in
src/rotatedcube.py. -/
def get_rotation_profile_main (method_dv : Bool)
    (get_vrot_from_width : List (List (Option α)) → List α → α)
    (get_vrot_from_GP : List (List (Option α)) → List α → α → List (List α))
    (annuli : List (List (List (Option α)) × List α × α)) :
    List (AnnulusResult α) :=
  annuli.map (fun a =>
    get_rotation_profile_step_main method_dv get_vrot_from_width
      get_vrot_from_GP a.1 a.2.1 a.2.2)

/-- Claim C7 (corrected, for the src/misc/rotatedcube.py sweep): every
radial bin whose annulus yields fewer than 2 spectra, or whose spectra sum
to zero under `np.nansum`, is recorded as the not-available sentinel (NaN
scalar for the `dV` method, NaN-filled array for the `GP` method), whatever
the solvers would compute -- the result is the sentinel for every choice of
solver oracle, so neither solver is invoked -- and the sweep continues: the
result list keeps one entry per bin. -/
theorem get_rotation_profile_misc_sentinel (method_dv : Bool)
    (get_vrot_dV : List (List (Option α)) → List α → α → α)
    (get_vrot_GP : List (List (Option α)) → List α → α → Option (List (List α)))
    (annuli : List (List (List (Option α)) × List α × α)) (i : ℕ)
    (sp : List (List (Option α))) (th : List α) (vk : α)
    (hget : annuli[i]? = some (sp, th, vk))
    (hguard : th.length < 2 ∨ nansum sp = 0) :
    (get_rotation_profile_misc method_dv get_vrot_dV get_vrot_GP annuli)[i]? =
        some (if method_dv then .dV none else .gp none) ∧
      (get_rotation_profile_misc method_dv get_vrot_dV get_vrot_GP
        annuli).length = annuli.length := by
  refine ⟨?_, by simp [get_rotation_profile_misc]⟩
  unfold get_rotation_profile_misc
  rw [List.getElem?_map, hget]
  rcases hguard with h | h
  · simp [get_rotation_profile_step_misc, h]
  · by_cases h2 : th.length < 2
    · simp [get_rotation_profile_step_misc, h2]
    · simp [get_rotation_profile_step_misc, h2, h]

/-- Claim C7, witness: the sentinel statement applied to a one-bin sweep
whose annulus is empty, with constant solver oracles, over `ℚ`. -/
theorem get_rotation_profile_misc_sentinel_witness :
    (([([], [], 0)] :
        List (List (List (Option ℚ)) × List ℚ × ℚ))[0]? = some ([], [], 0)) ∧
    (([] : List ℚ).length < 2 ∨ nansum ([] : List (List (Option ℚ))) = 0) ∧
    ((get_rotation_profile_misc true (fun _ _ _ => (0 : ℚ))
        (fun _ _ _ => none) [([], [], 0)])[0]? =
      some (if true then .dV none else .gp none) ∧
      (get_rotation_profile_misc true (fun _ _ _ => (0 : ℚ))
        (fun _ _ _ => none) [([], [], 0)]).length =
        ([([], [], 0)] : List (List (List (Option ℚ)) × List ℚ × ℚ)).length) :=
  ⟨rfl, Or.inl (by decide),
    get_rotation_profile_misc_sentinel true (fun _ _ _ => (0 : ℚ))
      (fun _ _ _ => none) [([], [], 0)] 0 [] [] 0 rfl (Or.inl (by decide))⟩

/-- Claim C7, counterexample: the sweep of src/rotatedcube.py (also cited by
the claim) has no such guard: on a radial bin whose annulus is empty (zero
spectra, hence fewer than 2, summing to zero) it still invokes the selected
solver and records the solver's output, not the NaN sentinel. -/
theorem get_rotation_profile_main_no_sentinel_cex :
    (([] : List ℚ).length < 2 ∧ nansum ([] : List (List (Option ℚ))) = 0) ∧
    get_rotation_profile_main true (fun _ _ => (5 : ℚ))
        (fun _ _ _ => [[0]]) [([], [], 0)] = [.dV (some 5)] ∧
    AnnulusResult.dV (some (5 : ℚ)) ≠ .dV none := by
  refine ⟨⟨by decide, by decide⟩, rfl, by simp⟩

end RotationSweep

section VelocityAxis

/-- Header fields of the cube consumed by the spectral-axis reader of
src/cube.py: the spectral axis type string `ctype3`, the rest-frequency
fallback chain `restfreq`/`restfrq`/`crval3`, and the axis descriptors
`naxis3`, `cdelt3`, `crpix3`, `crval3`.  Frequencies and velocities are
exact rationals. -/
structure FitsHeader where
  ctype3 : List Char
  restfreq : Option ℚ
  restfrq : Option ℚ
  naxis3 : ℕ
  cdelt3 : ℚ
  crpix3 : ℚ
  crval3 : ℚ

/-- Embedding of `imagecube._readspectralaxis` (src/cube.py, lines
347-353): `a_ref + (np.arange(a_len) - a_pix + 1.0) * a_del`. -/
def readspectralaxis (h : FitsHeader) : List ℚ :=
  (List.range h.naxis3).map
    (fun (k : ℕ) => h.crval3 + ((k : ℚ) - h.crpix3 + 1) * h.cdelt3)

/-- Embedding of `imagecube._readrestfreq` (src/cube.py, lines 373-382):
`restfreq`, else `restfrq`, else `crval3`. -/
def readrestfreq (h : FitsHeader) : ℚ :=
  match h.restfreq with
  | some nu => nu
  | none =>
    match h.restfrq with
    | some nu => nu
    | none => h.crval3

/-- The speed of light `scipy.constants.c` in m/s. -/
def c_light : ℚ := 299792458

/-- Substring test: `contains_chars pat l` holds iff `pat` occurs
contiguously in `l`, modelling Python's `pat in l` for strings. -/
def contains_chars (pat : List Char) : List Char → Bool
  | [] => pat.isEmpty
  | c :: rest => pat.isPrefixOf (c :: rest) || contains_chars pat rest

/-- Embedding of `imagecube._readvelocityaxis` (src/cube.py, lines
384-392): if `'freq' in ctype3.lower()` convert the spectral axis through
`(nu - specax) * sc.c / nu`, otherwise return it unchanged. -/
def readvelocityaxis (h : FitsHeader) : List ℚ :=
  if contains_chars "freq".toList (h.ctype3.map Char.toLower) then
    (readspectralaxis h).map
      (fun s => (readrestfreq h - s) * c_light / readrestfreq h)
  else readspectralaxis h

/-- Doppler conversion in the spec's form, `v = (nu_rest - nu_obs) / nu_rest * c`. -/
def doppler_velocity (nu s : ℚ) : ℚ := (nu - s) / nu * c_light

/-- Claim C9 (corrected): `_readvelocityaxis` returns, when the LOWERCASED
spectral axis type string contains `"freq"` (the source tests
`'freq' in ctype3.lower()`, so the match is case-insensitive, unlike the
claim's literal containment), the spectral axis converted channel-wise by
`v = (nu_rest - nu_obs) / nu_rest * c`; otherwise the spectral axis values
unchanged. -/
theorem readvelocityaxis_freq_conversion (h : FitsHeader) :
    readvelocityaxis h =
      if contains_chars "freq".toList (h.ctype3.map Char.toLower) then
        (readspectralaxis h).map (fun s => doppler_velocity (readrestfreq h) s)
      else readspectralaxis h := by
  unfold readvelocityaxis doppler_velocity
  split_ifs with hc
  · refine List.map_congr_left (fun s _ => ?_)
    ring
  · rfl

/-- Claim C9, counterexample: for the header type string `"FREQ"` (the
conventional FITS spelling) the literal containment of `"freq"` fails, so
the claim predicts the axis is returned unchanged; the code lowercases
first and converts: with rest frequency `2` and a single spectral sample
`1`, it returns `[(2 - 1) * c / 2] = [149896229]`, not `[1]`. -/
theorem readvelocityaxis_case_sensitivity_cex :
    contains_chars "freq".toList "FREQ".toList = false ∧
    readspectralaxis ⟨"FREQ".toList, some 2, none, 1, 0, 1, 1⟩ = [1] ∧
    readvelocityaxis ⟨"FREQ".toList, some 2, none, 1, 0, 1, 1⟩ = [149896229] ∧
    ([149896229] : List ℚ) ≠ [1] := by
  refine ⟨by decide, by norm_num [readspectralaxis, List.range_succ],
    ?_, by norm_num⟩
  norm_num [readvelocityaxis, readspectralaxis, readrestfreq, c_light,
    List.range_succ]
  decide

end VelocityAxis

section EmissionSurfaceUpdate

variable {α : Type} [LinearOrderedField α]

/-- Embedding of the in-place state effect of `rotatedcube.emission_surface`
(src/rotatedcube.py lines 332-342 and, identically, src/misc/rotatedcube.py
lines 236-246) on the stored height table `self.zvals`.  `none` entries
model NaN heights.  The source first repairs a leading NaN
(`if np.isnan(self.zvals[0])`) by writing the linear ramp through `(0, 0)`
and the first finite sample onto `zvals[:idx]`; then, only if the LAST
entry is NaN (`if np.isnan(self.zvals[-1])`), zeroes everything from the
first remaining NaN onwards.  `np.isfinite(...).argmax()` returns `0` when
no entry is finite, which the inner `if k = zvals.length` mirrors
(`List.findIdx` returns the length when no entry satisfies the
predicate).  This definition is the first statement (the leading-NaN ramp
repair); `emission_surface_repair_tail` is the second; their composition
`emission_surface_update` is the whole state effect. -/
def emission_surface_repair_head (rvals : List α) (zvals : List (Option α)) :
    List (Option α) :=
  if (zvals.headD (some 0)).isNone then
    let k := zvals.findIdx (fun z => z.isSome)
    let idx := if k = zvals.length then 0 else k
    let v := (zvals.getD idx none).getD 0
    ((List.range idx).map
      (fun (j : ℕ) => some (v * rvals.getD j 0 / rvals.getD idx 0))) ++
      zvals.drop idx
  else zvals

/-- Second statement of `emission_surface`: `if np.isnan(self.zvals[-1]):
idx = np.isnan(self.zvals).argmax(); self.zvals[idx:] = 0.0`. -/
def emission_surface_repair_tail (z1 : List (Option α)) : List (Option α) :=
  if (z1.getLastD (some 0)).isNone then
    z1.take (z1.findIdx fun z => z.isNone) ++
      List.replicate (z1.length - z1.findIdx (fun z => z.isNone)) (some 0)
  else z1

def emission_surface_update (rvals : List α) (zvals : List (Option α)) :
    List (Option α) :=
  emission_surface_repair_tail (emission_surface_repair_head rvals zvals)

theorem ne_of_getElem?_ne {β : Type} {l1 l2 : List β} (i : ℕ)
    (h : l1[i]? ≠ l2[i]?) : l1 ≠ l2 :=
  fun he => h (he ▸ rfl)

/-- Claim C10, counterexample: a height table with an interior NaN but
finite first and last entries, `[1, NaN, 2]`, is NOT overwritten by the
lookup: neither repair branch fires (the source only tests `zvals[0]` and
`zvals[-1]`), so the stored table keeps its NaN and does not become the
`[1, 0, 0]` that the claim's "every entry from the first NaN to the end set
to 0" predicts. -/
theorem emission_surface_update_interior_nan_cex :
    emission_surface_update ([1, 2, 3] : List ℚ) [some 1, none, some 2] =
      [some 1, none, some 2] ∧
    ([some (1 : ℚ), none, some 2] : List (Option ℚ)).any
      (fun z => z.isNone) = true ∧
    ([some (1 : ℚ), none, some 2] : List (Option ℚ)) ≠
      [some 1, some 0, some 0] := by
  refine ⟨?_, by decide, by simp⟩
  rfl

/-- Claim C10 (corrected): the height lookup `emission_surface` mutates the
stored `zvals` table exactly when the FIRST entry is NaN (leading entries
are then replaced by a linear ramp from `(0, 0)`) or the LAST entry is NaN
(entries from the first NaN onwards are then zeroed, including finite
values after an interior NaN); a table whose first and last entries are
both finite -- even one holding interior NaNs -- is left unchanged, and in
particular a NaN-free table is left unchanged. -/
theorem emission_surface_repair_head_of_isSome (rvals : List α)
    (zvals : List (Option α)) (hh : (zvals.headD (some 0)).isSome) :
    emission_surface_repair_head rvals zvals = zvals := by
  unfold emission_surface_repair_head
  rw [if_neg]
  rcases ho : zvals.headD (some 0) with _ | v
  · rw [ho] at hh
    simp at hh
  · simp

theorem emission_surface_repair_tail_of_isSome (z1 : List (Option α))
    (hl : (z1.getLastD (some 0)).isSome) :
    emission_surface_repair_tail z1 = z1 := by
  unfold emission_surface_repair_tail
  rw [if_neg]
  rcases ho : z1.getLastD (some 0) with _ | v
  · rw [ho] at hl
    simp at hl
  · simp

theorem emission_surface_repair_tail_entry (z1 : List (Option α)) (i : ℕ)
    (w : α) (hi : z1[i]? = some (some w)) :
    ∃ w', (emission_surface_repair_tail z1)[i]? = some (some w') := by
  have hilen : i < z1.length := by
    by_contra hnot
    rw [List.getElem?_eq_none (Nat.le_of_not_lt hnot)] at hi
    exact Option.noConfusion hi
  unfold emission_surface_repair_tail
  split
  · by_cases hik : i < z1.findIdx (fun z => z.isNone)
    · refine ⟨w, ?_⟩
      rw [List.getElem?_append_left, List.getElem?_take_of_lt hik, hi]
      rw [List.length_take]
      exact Nat.lt_min.mpr ⟨hik, hilen⟩
    · refine ⟨0, ?_⟩
      have hk2 : z1.findIdx (fun z => z.isNone) ≤ i := Nat.le_of_not_lt hik
      have hlen : (z1.take (z1.findIdx fun z => z.isNone)).length =
          z1.findIdx (fun z => z.isNone) := by
        rw [List.length_take]
        exact Nat.min_eq_left (Nat.le_trans hk2 (Nat.le_of_lt hilen))
      rw [List.getElem?_append_right (by rw [hlen]; exact hk2), hlen,
        List.getElem?_replicate_of_lt (by omega)]
  · exact ⟨w, hi⟩

theorem emission_surface_update_ne_of_head_none (rvals : List α)
    (zvals : List (Option α)) (hne : zvals ≠ [])
    (hh : zvals.headD (some 0) = none) :
    emission_surface_update rvals zvals ≠ zvals := by
  rcases zvals with _ | ⟨z0, rest⟩
  · exact absurd rfl hne
  have hz0 : z0 = none := by simpa using hh
  subst hz0
  by_cases hcase : (none :: rest).findIdx (fun z => z.isSome) =
      ((none : Option α) :: rest).length
  · -- every stored height is NaN: the first branch is a no-op and the
    -- second zeroes the whole table.
    have hall : ∀ x ∈ (none :: rest), x.isSome = false :=
      List.findIdx_eq_length.mp hcase
    have hhead : emission_surface_repair_head rvals (none :: rest) =
        (none :: rest) := by
      unfold emission_surface_repair_head
      rw [if_pos (by simp)]
      simp only [if_pos hcase]
      simp
    have hlast : ((none : Option α) :: rest).getLastD (some 0) = none := by
      rw [List.getLastD_eq_getLast?, List.getLast?_eq_getElem?]
      have hlt : ((none : Option α) :: rest).length - 1 <
          ((none : Option α) :: rest).length := by simp
      rw [List.getElem?_eq_getElem hlt]
      simp only [Option.getD_some]
      rcases hx : ((none : Option α) :: rest)[(none :: rest).length - 1] with _ | v
      · rfl
      · have := hall _ (hx ▸ List.getElem_mem hlt)
        simp at this
    have htail : emission_surface_repair_tail ((none : Option α) :: rest) =
        List.replicate (rest.length + 1) (some 0) := by
      unfold emission_surface_repair_tail
      rw [if_pos (by rw [hlast]; rfl)]
      have hfi : ((none : Option α) :: rest).findIdx (fun z => z.isNone) = 0 := by
        simp [List.findIdx_cons]
      rw [hfi]
      simp
    intro he
    rw [emission_surface_update, hhead, htail] at he
    have h0 := congrArg (fun l => l[0]?) he
    simp at h0
  · -- a finite height exists: the ramp makes the leading entry finite.
    have hklen : (none :: rest).findIdx (fun z => z.isSome) <
        ((none : Option α) :: rest).length :=
      Nat.lt_of_le_of_ne (List.findIdx_le_length _) hcase
    have hkpos : 0 < (none :: rest).findIdx (fun z => z.isSome) := by
      have hstep : (none :: rest).findIdx (fun (z : Option α) => z.isSome) =
          rest.findIdx (fun z => z.isSome) + 1 := by
        simp [List.findIdx_cons]
      omega
    set k : ℕ := (none :: rest).findIdx (fun z => z.isSome) with hk
    have hhead : emission_surface_repair_head rvals (none :: rest) =
        ((List.range k).map
          (fun (j : ℕ) => some (((none :: rest).getD k none).getD 0 *
            rvals.getD j 0 / rvals.getD k 0))) ++ (none :: rest).drop k := by
      unfold emission_surface_repair_head
      rw [if_pos (by simp)]
      simp only [if_neg hcase]
    have h0some : (emission_surface_repair_head rvals (none :: rest))[0]? =
        some (some (((none :: rest).getD k none).getD 0 *
          rvals.getD 0 0 / rvals.getD k 0)) := by
      rw [hhead, List.getElem?_append_left (by simpa using hkpos),
        List.getElem?_map, List.getElem?_range hkpos]
      rfl
    obtain ⟨w', hw'⟩ := emission_surface_repair_tail_entry
      (emission_surface_repair_head rvals (none :: rest)) 0 _ h0some
    intro he
    rw [emission_surface_update] at he
    have h0 := congrArg (fun l => l[0]?) he
    simp only at h0
    rw [hw'] at h0
    simp at h0

theorem emission_surface_update_ne_of_last_none (rvals : List α)
    (zvals : List (Option α)) (hne : zvals ≠ [])
    (hh : (zvals.headD (some 0)).isSome)
    (hl : zvals.getLastD (some 0) = none) :
    emission_surface_update rvals zvals ≠ zvals := by
  have hhead : emission_surface_repair_head rvals zvals = zvals :=
    emission_surface_repair_head_of_isSome rvals zvals hh
  have hlastel : zvals[zvals.length - 1]? = some none := by
    rw [← List.getLast?_eq_getElem?]
    rcases hg : zvals.getLast? with _ | x
    · exact absurd (List.getLast?_eq_none_iff.mp hg) hne
    · rw [List.getLastD_eq_getLast?, hg] at hl
      simp only [Option.getD_some] at hl
      rw [hl]
  have hex : ∃ x ∈ zvals, (fun (z : Option α) => z.isNone) x =
      true := by
    refine ⟨none, List.getElem?_mem hlastel, rfl⟩
  have hk2len : zvals.findIdx (fun z => z.isNone) < zvals.length :=
    List.findIdx_lt_length_of_exists hex
  have hentry : zvals[zvals.findIdx (fun z => z.isNone)]? = some none := by
    have hp := List.findIdx_getElem (p := fun (z : Option α) => z.isNone)
      (w := hk2len)
    rw [List.getElem?_eq_getElem hk2len]
    rcases hzk : zvals[zvals.findIdx (fun z => z.isNone)] with _ | v
    · rw [hzk]
    · rw [hzk] at hp
      simp at hp
  have htail : emission_surface_repair_tail zvals =
      zvals.take (zvals.findIdx fun z => z.isNone) ++
        List.replicate (zvals.length - zvals.findIdx (fun z => z.isNone))
          (some 0) := by
    unfold emission_surface_repair_tail
    rw [if_pos (by rw [hl]; rfl)]
  intro he
  rw [emission_surface_update, hhead, htail] at he
  have hc := congrArg (fun l => l[zvals.findIdx (fun z => z.isNone)]?) he
  simp only at hc
  rw [hentry] at hc
  have hlen : (zvals.take (zvals.findIdx fun z => z.isNone)).length =
      zvals.findIdx (fun z => z.isNone) := by
    rw [List.length_take]
    exact Nat.min_eq_left (Nat.le_of_lt hk2len)
  rw [List.getElem?_append_right (by rw [hlen]), hlen, Nat.sub_self,
    List.getElem?_replicate_of_lt (by omega)] at hc
  exact Option.noConfusion (Option.some.inj hc)

/-- Claim C10 (corrected): the height lookup `emission_surface` mutates the
stored `zvals` table exactly when the FIRST entry is NaN (leading entries
are then replaced by a linear ramp from `(0, 0)`) or the LAST entry is NaN
(entries from the first NaN onwards are then zeroed, including finite
values after an interior NaN); a table whose first and last entries are
both finite -- even one holding interior NaNs -- is left unchanged, and in
particular a NaN-free table is left unchanged. -/
theorem emission_surface_update_unchanged_iff (rvals : List α)
    (zvals : List (Option α)) (hne : zvals ≠ []) :
    emission_surface_update rvals zvals = zvals ↔
      ((zvals.headD (some 0)).isSome ∧ (zvals.getLastD (some 0)).isSome) := by
  constructor
  · intro hupd
    by_contra hc
    rw [not_and_or] at hc
    rcases hc with hc | hc
    · have hh : zvals.headD (some 0) = none := by
        rcases ho : zvals.headD (some 0) with _ | v
        · rfl
        · rw [ho] at hc
          simp at hc
      exact emission_surface_update_ne_of_head_none rvals zvals hne hh hupd
    · have hl : zvals.getLastD (some 0) = none := by
        rcases ho : zvals.getLastD (some 0) with _ | v
        · rfl
        · rw [ho] at hc
          simp at hc
      by_cases hh : (zvals.headD (some 0)).isSome
      · exact emission_surface_update_ne_of_last_none rvals zvals hne hh hl hupd
      · have hh' : zvals.headD (some 0) = none := by
          rcases ho : zvals.headD (some 0) with _ | v
          · rfl
          · rw [ho] at hh
            simp at hh
        exact emission_surface_update_ne_of_head_none rvals zvals hne hh' hupd
  · rintro ⟨hh, hl⟩
    rw [emission_surface_update, emission_surface_repair_head_of_isSome rvals
      zvals hh, emission_surface_repair_tail_of_isSome zvals hl]

/-- Claim C10, witness: the corrected statement applied to the table
`[1, NaN, 2]` over `ℚ`, whose endpoints are finite: the lookup leaves the
stored state unchanged. -/
theorem emission_surface_update_unchanged_iff_witness :
    (([some 1, none, some 2] : List (Option ℚ)) ≠ []) ∧
    (emission_surface_update ([1, 2, 3] : List ℚ) [some 1, none, some 2] =
        [some 1, none, some 2] ↔
      ((([some 1, none, some 2] : List (Option ℚ)).headD (some 0)).isSome ∧
        (([some 1, none, some 2] : List (Option ℚ)).getLastD
          (some 0)).isSome)) :=
  ⟨by simp, emission_surface_update_unchanged_iff [1, 2, 3]
    [some 1, none, some 2] (by simp)⟩

end EmissionSurfaceUpdate

noncomputable section Geometry

/-- Degrees to radians, `np.radians`. -/
def radians (d : ℝ) : ℝ := d * (Real.pi / 180)

/-- Model of `np.hypot(x, y)`. -/
def hypot (x y : ℝ) : ℝ := Real.sqrt (x ^ 2 + y ^ 2)

/-- Model of `np.arctan2(y, x)`: the four-quadrant arctangent with the C
library convention (`arctan2(0, x) = pi` for `x < 0`,
`arctan2(0, 0) = 0`). -/
def arctan2 (y x : ℝ) : ℝ :=
  if 0 < x then Real.arctan (y / x)
  else if x < 0 then
    (if 0 ≤ y then Real.arctan (y / x) + Real.pi
     else Real.arctan (y / x) - Real.pi)
  else if 0 < y then Real.pi / 2
  else if y < 0 then -(Real.pi / 2)
  else 0

/-- Embedding of `imagecube._rotate(x, y, PA)` (src/cube.py, lines
314-319).  Note the source adds ANOTHER 90 degrees to its `PA` argument
before rotating (`PArad = np.radians(PA + 90)`). -/
def rotate_xy (x y PA : ℝ) : ℝ × ℝ :=
  (x * Real.cos (radians (PA + 90)) + y * Real.sin (radians (PA + 90)),
   y * Real.cos (radians (PA + 90)) - x * Real.sin (radians (PA + 90)))

/-- Embedding of `imagecube._incline(x, y, inc)` (src/cube.py, lines
321-323): divide the second coordinate by `cos(inc)`. -/
def incline_xy (x y inc : ℝ) : ℝ × ℝ := (x, y / Real.cos (radians inc))

/-- Embedding of `imagecube.disk_coordinates(x0, y0, inc, PA)` (src/cube.py,
lines 304-312) at pixel `(i, j)`.  `np.meshgrid(self.xaxis[::-1] - x0,
self.yaxis - y0)` assigns column `j` the sky offset of the REVERSED x axis;
the sky vector is then passed to `_rotate` with argument `PA + 90` (which
adds another 90 internally), inclined, and returned as polar coordinates
`(radius, azimuth) = (np.hypot(x_dep, y_dep), np.arctan2(y_dep, x_dep))`. -/
def disk_coordinates (xaxis yaxis : List ℝ) (x0 y0 inc PA : ℝ)
    (i j : ℕ) : ℝ × ℝ :=
  let xs := xaxis.getD (xaxis.length - 1 - j) 0 - x0
  let ys := yaxis.getD i 0 - y0
  let p := rotate_xy xs ys (PA + 90)
  let q := incline_xy p.1 p.2 inc
  (hypot q.1 q.2, arctan2 q.2 q.1)

/-- State of a `rotatedcube` (src/rotatedcube.py `__init__`) relevant to the
spatial deprojection: position axes, the geometry parameters fixed at
construction, and the stored emission-surface table `(rvals, zvals)`.
`zvals` here is a NaN-free value table; the NaN-repair state effect of
`emission_surface` is modelled separately by `emission_surface_update`,
which by `emission_surface_update_unchanged_iff` is the identity on
NaN-free tables. -/
structure RotatedCube where
  xaxis : List ℝ
  yaxis : List ℝ
  x0 : ℝ
  y0 : ℝ
  inc : ℝ
  tilt_north : Bool
  rvals : List ℝ
  zvals : List ℝ

/-- Value returned by `rotatedcube.emission_surface(radii)`
(src/rotatedcube.py, lines 332-342) on a NaN-free stored table: linear
interpolation over `(rvals, zvals)` with linear extrapolation outside the
sampled range (`fill_value='extrapolate'`).  `none` models the `ValueError`
that `scipy.interpolate.interp1d` raises when the table has mismatched
lengths or fewer than two samples. -/
def emission_surface (c : RotatedCube) (q : ℝ) : Option ℝ :=
  if 2 ≤ c.rvals.length ∧ c.rvals.length = c.zvals.length then
    some (lininterp (c.rvals.zip c.zvals) q)
  else none

/-- Embedding of `rotatedcube._disk_coordinates_3D_iteration(rpix)`
(src/rotatedcube.py, lines 318-328).  The pixel grids are functions of the
pixel indices `(i, j)`; `rpix = none` models the Python `None` default that
seeds the iteration with `np.hypot(self.xaxis[None, :],
self.yaxis[:, None])`.  The height grid is
`emission_surface(rpix) * (1 if tilt == 'north' else -1)`; the sky y is
`yaxis / cos(inc) - zpix * tan(inc)`; the return is
`(np.hypot(ypix, xpix), np.arctan2(ypix, xpix))`. -/
def disk_coordinates_3D_iteration (c : RotatedCube)
    (rpix : Option (ℕ → ℕ → ℝ)) :
    Option ((ℕ → ℕ → ℝ) × (ℕ → ℕ → ℝ)) :=
  if 2 ≤ c.rvals.length ∧ c.rvals.length = c.zvals.length then
    let rp : ℕ → ℕ → ℝ := fun i j =>
      match rpix with
      | none => hypot (c.xaxis.getD j 0) (c.yaxis.getD i 0)
      | some r => r i j
    let zp : ℕ → ℕ → ℝ := fun i j =>
      lininterp (c.rvals.zip c.zvals) (rp i j) *
        (if c.tilt_north then 1 else -1)
    let yp : ℕ → ℕ → ℝ := fun i j =>
      c.yaxis.getD i 0 / Real.cos (radians c.inc) -
        zp i j * Real.tan (radians c.inc)
    let xp : ℕ → ℕ → ℝ := fun _ j => c.xaxis.getD j 0
    some (fun i j => hypot (yp i j) (xp i j),
      fun i j => arctan2 (yp i j) (xp i j))
  else none

/-- Iteration loop of `rotatedcube.disk_coordinates_3D(niter)`
(src/rotatedcube.py, lines 307-316), threading the radius grid. -/
def disk_coordinates_3D_go (c : RotatedCube) :
    ℕ → Option (ℕ → ℕ → ℝ) → Option ((ℕ → ℕ → ℝ) × (ℕ → ℕ → ℝ))
  | 0, _ => none
  | n + 1, rpix =>
    match disk_coordinates_3D_iteration c rpix with
    | none => none
    | some rt =>
      if n = 0 then some rt else disk_coordinates_3D_go c n (some rt.1)

/-- Embedding of `rotatedcube.disk_coordinates_3D(niter)`: `niter`
iterations starting from `rpix = None`.  `niter = 0` is modelled as `none`
(the source would return the undefined name `tpix`). -/
def disk_coordinates_3D (c : RotatedCube) (niter : ℕ) :
    Option ((ℕ → ℕ → ℝ) × (ℕ → ℕ → ℝ)) :=
  disk_coordinates_3D_go c niter none

/-- Radius field that the raised-surface deprojection produces when every
looked-up height is zero. -/
def flat3D_r (c : RotatedCube) (i j : ℕ) : ℝ :=
  hypot (c.yaxis.getD i 0 / Real.cos (radians c.inc)) (c.xaxis.getD j 0)

/-- Azimuth field that the raised-surface deprojection produces when every
looked-up height is zero. -/
def flat3D_t (c : RotatedCube) (i j : ℕ) : ℝ :=
  arctan2 (c.yaxis.getD i 0 / Real.cos (radians c.inc)) (c.xaxis.getD j 0)

/-- Embedding of `rotatedcube.set_emission_surface_analytical(func, theta)`
(src/rotatedcube.py, lines 344-372).  `none` models the `ValueError` raised
on a wrong parameter count or an unknown function name.  The power law is
`z = z0 * rvals ** zq` (`np.power` with a real exponent, `Real.rpow`); the
conical surface is `z = rvals * tan(radians(psi)) + z0` with `z0`
defaulting to `0`. -/
def set_emission_surface_analytical (c : RotatedCube) (func : List Char)
    (theta : List ℝ) : Option RotatedCube :=
  if func.map Char.toLower = "powerlaw".toList then
    match theta with
    | [z0, zq] => some { c with zvals := c.rvals.map (fun r => z0 * r ^ zq) }
    | _ => none
  else if func.map Char.toLower = "conical".toList then
    match theta with
    | [psi] =>
      some { c with zvals := c.rvals.map (fun r => r * Real.tan (radians psi) + 0) }
    | [psi, z0] =>
      some { c with zvals := c.rvals.map (fun r => r * Real.tan (radians psi) + z0) }
    | _ => none
  else none

end Geometry

section GeometryTheorems

theorem lininterp_zip_replicate_zero (rvals : List ℝ) (m : ℕ) (t : ℝ) :
    lininterp (rvals.zip (List.replicate m (0 : ℝ))) t = 0 := by
  apply lininterp_zero
  intro p hp
  exact List.eq_of_mem_replicate (List.of_mem_zip hp).2

theorem disk_coordinates_3D_iteration_zero_table (c : RotatedCube)
    (hz : c.zvals = List.replicate c.rvals.length 0)
    (hl : 2 ≤ c.rvals.length) (rpix : Option (ℕ → ℕ → ℝ)) :
    disk_coordinates_3D_iteration c rpix = some (flat3D_r c, flat3D_t c) := by
  have hok : 2 ≤ c.rvals.length ∧ c.rvals.length = c.zvals.length :=
    ⟨hl, by rw [hz, List.length_replicate]⟩
  have hzero : ∀ t : ℝ, lininterp (c.rvals.zip c.zvals) t = 0 := by
    intro t
    rw [hz]
    exact lininterp_zip_replicate_zero _ _ _
  unfold disk_coordinates_3D_iteration
  rw [if_pos hok]
  refine congrArg some (Prod.ext ?_ ?_) <;> funext i j <;>
    simp only [hzero, zero_mul, sub_zero, flat3D_r, flat3D_t]

theorem disk_coordinates_3D_zero_table (c : RotatedCube) (n : ℕ)
    (hz : c.zvals = List.replicate c.rvals.length 0)
    (hl : 2 ≤ c.rvals.length) :
    disk_coordinates_3D c (n + 1) = some (flat3D_r c, flat3D_t c) := by
  have h : ∀ (k : ℕ) (rpix : Option (ℕ → ℕ → ℝ)),
      disk_coordinates_3D_go c (k + 1) rpix =
        some (flat3D_r c, flat3D_t c) := by
    intro k
    induction k with
    | zero =>
      intro rpix
      unfold disk_coordinates_3D_go
      rw [disk_coordinates_3D_iteration_zero_table c hz hl rpix]
      simp
    | succ m ih =>
      intro rpix
      unfold disk_coordinates_3D_go
      rw [disk_coordinates_3D_iteration_zero_table c hz hl rpix]
      simpa using ih (some (flat3D_r c))
  unfold disk_coordinates_3D
  exact h n none

/-- Cube in its freshly constructed state: a populated geometry, a radial
grid of two or more samples, and the all-zero height table that
`rotatedcube.__init__` installs (`self.zvals = np.zeros(self.rvals.size)`). -/
def cube_A : RotatedCube :=
  ⟨[0, 1], [0, 1], 0, 0, 0, true, [1, 2], [0, 0]⟩

/-- Claim C1 (corrected): requesting the raised-surface deprojection on a
cube whose height table has not been populated with any height samples does
NOT fail: `__init__` installs an all-zero `zvals` table, so
`disk_coordinates_3D` succeeds and returns the zero-height (flat-equivalent)
deprojection fields for every iteration count `niter >= 1`; no "surface not
initialized" error exists anywhere in the source.  (The only flat-disk
fallback is in callers -- `radial_profile` and `_get_mask` in src/cube.py
wrap the call in a bare `try/except` and silently fall back to
`disk_coordinates` on any exception.) -/
theorem disk_coordinates_3D_zero_table_succeeds (c : RotatedCube) (n : ℕ)
    (hz : c.zvals = List.replicate c.rvals.length 0)
    (hl : 2 ≤ c.rvals.length) :
    (disk_coordinates_3D c (n + 1)).isSome = true ∧
      disk_coordinates_3D c (n + 1) = some (flat3D_r c, flat3D_t c) := by
  have h := disk_coordinates_3D_zero_table c n hz hl
  exact ⟨by rw [h]; rfl, h⟩

/-- Claim C1, witness: the corrected statement applied to the concrete
freshly built cube `cube_A` with the default `niter = 5`. -/
theorem disk_coordinates_3D_zero_table_succeeds_witness :
    (cube_A.zvals = List.replicate cube_A.rvals.length 0 ∧
      2 ≤ cube_A.rvals.length) ∧
    ((disk_coordinates_3D cube_A (4 + 1)).isSome = true ∧
      disk_coordinates_3D cube_A (4 + 1) =
        some (flat3D_r cube_A, flat3D_t cube_A)) :=
  ⟨⟨rfl, by simp [cube_A]⟩,
    disk_coordinates_3D_zero_table_succeeds cube_A 4 rfl (by simp [cube_A])⟩

/-- Claim C1, counterexample: on the freshly constructed cube `cube_A`,
whose height table holds no height samples (it is the all-zero initial
table), `disk_coordinates_3D()` with the default `niter = 5` returns a
value -- it does not fail with any error, contradicting the claimed
"surface not initialized" failure. -/
theorem disk_coordinates_3D_unpopulated_no_error_cex :
    disk_coordinates_3D cube_A 5 ≠ none := by
  have h := disk_coordinates_3D_zero_table cube_A 4 rfl (by simp [cube_A])
  norm_num at h
  rw [h]
  simp

theorem radians_zero : radians 0 = 0 := by
  simp [radians]

theorem radians_pi_form : radians (0 + 90 + 90) = Real.pi := by
  unfold radians
  rw [show ((0 : ℝ) + 90 + 90) = 180 by norm_num,
    show (180 : ℝ) * (Real.pi / 180) = Real.pi * 180 / 180 by ring,
    mul_div_cancel_right₀ _ (by norm_num : (180 : ℝ) ≠ 0)]

theorem rotate_xy_sq_norm (x y PA : ℝ) :
    (rotate_xy x y PA).1 ^ 2 + (rotate_xy x y PA).2 ^ 2 = x ^ 2 + y ^ 2 := by
  unfold rotate_xy
  have h := Real.sin_sq_add_cos_sq (radians (PA + 90))
  simp only
  linear_combination (x ^ 2 + y ^ 2) * h

theorem arctan2_one_neg_one_pos : 0 < arctan2 1 (-1) := by
  unfold arctan2
  rw [if_neg (by norm_num), if_pos (by norm_num), if_pos (by norm_num),
    show (1 : ℝ) / (-1) = -1 by norm_num, Real.arctan_neg, Real.arctan_one]
  linarith [Real.pi_pos]

theorem arctan2_neg_one_neg_one_neg : arctan2 (-1) (-1) < 0 := by
  unfold arctan2
  rw [if_neg (by norm_num), if_pos (by norm_num), if_neg (by norm_num),
    show (-1 : ℝ) / (-1) = 1 by norm_num, Real.arctan_one]
  linarith [Real.pi_pos]

theorem arctan2_one_one_pos : 0 < arctan2 1 1 := by
  unfold arctan2
  rw [if_pos (by norm_num), show (1 : ℝ) / 1 = 1 by norm_num,
    Real.arctan_one]
  linarith [Real.pi_pos]

/-- Claim C2 (corrected): with the stored emission-surface height
identically zero, `disk_coordinates_3D` succeeds for every iteration count
`niter >= 1`, returning fields independent of `niter`, and its RADIUS field
agrees with the flat-disk `disk_coordinates` radius at `x0 = y0 = 0`,
`PA = 0` up to the x-index reversal that only the flat code performs
(`radius3D i j = radius_flat i (nx - 1 - j)`).  The azimuth fields do NOT
agree in general (the flat code rotates the sky vector by `PA + 180`
degrees and reads the mirrored x offset); see the counterexample. -/
theorem disk_coordinates_3D_flat_radius_agreement (c : RotatedCube) (n : ℕ)
    (hz : c.zvals = List.replicate c.rvals.length 0)
    (hl : 2 ≤ c.rvals.length) :
    disk_coordinates_3D c (n + 1) = some (flat3D_r c, flat3D_t c) ∧
      ∀ i j, j < c.xaxis.length →
        flat3D_r c i j =
          (disk_coordinates c.xaxis c.yaxis 0 0 c.inc 0 i
            (c.xaxis.length - 1 - j)).1 := by
  refine ⟨disk_coordinates_3D_zero_table c n hz hl, ?_⟩
  intro i j hj
  have hidx : c.xaxis.length - 1 - (c.xaxis.length - 1 - j) = j := by omega
  simp only [disk_coordinates, flat3D_r, rotate_xy, incline_xy, hypot, hidx,
    radians_pi_form, Real.cos_pi, Real.sin_pi, sub_zero]
  congr 1
  ring

/-- Cube with a symmetric x axis, one y row, face-on geometry and the
all-zero height table, used to compare the raised-surface and flat-disk
deprojection fields. -/
def cube_B : RotatedCube :=
  ⟨[-1, 1], [1], 0, 0, 0, true, [1, 2], [0, 0]⟩

/-- Claim C2, witness: the corrected statement applied to `cube_B` with
`niter = 1`. -/
theorem disk_coordinates_3D_flat_radius_agreement_witness :
    (cube_B.zvals = List.replicate cube_B.rvals.length 0 ∧
      2 ≤ cube_B.rvals.length) ∧
    (disk_coordinates_3D cube_B (0 + 1) =
        some (flat3D_r cube_B, flat3D_t cube_B) ∧
      ∀ i j, j < cube_B.xaxis.length →
        flat3D_r cube_B i j =
          (disk_coordinates cube_B.xaxis cube_B.yaxis 0 0 cube_B.inc 0 i
            (cube_B.xaxis.length - 1 - j)).1) :=
  ⟨⟨rfl, by simp [cube_B]⟩,
    disk_coordinates_3D_flat_radius_agreement cube_B 0 rfl (by simp [cube_B])⟩

/-- Claim C2, counterexample: on `cube_B` (zero heights everywhere, center
`(0, 0)`, inclination `0`, north tilt) the azimuth field of
`disk_coordinates_3D` (any `niter`, here the default 5) differs from the
azimuth field of the flat-disk `disk_coordinates` at the same geometry
parameters (`x0 = y0 = 0`, `inc = 0`, and `PA = 0` as the callers use): at
pixel `(0, 0)` the raised-surface azimuth is `arctan2(1, -1) = 3*pi/4 > 0`
while the flat-disk azimuth is `arctan2(-1, -1) = -3*pi/4 < 0`. -/
theorem disk_coordinates_3D_azimuth_mismatch_cex :
    disk_coordinates_3D cube_B 5 = some (flat3D_r cube_B, flat3D_t cube_B) ∧
    flat3D_t cube_B 0 0 ≠
      (disk_coordinates cube_B.xaxis cube_B.yaxis cube_B.x0 cube_B.y0
        cube_B.inc 0 0 0).2 := by
  constructor
  · have h := disk_coordinates_3D_zero_table cube_B 4 rfl (by simp [cube_B])
    norm_num at h
    exact h
  · have h3d : flat3D_t cube_B 0 0 = arctan2 1 (-1) := by
      simp [flat3D_t, cube_B, radians_zero]
    have hflat : (disk_coordinates cube_B.xaxis cube_B.yaxis cube_B.x0
        cube_B.y0 cube_B.inc 0 0 0).2 = arctan2 (-1) (-1) := by
      simp only [disk_coordinates, cube_B, rotate_xy, incline_xy,
        radians_pi_form, Real.cos_pi, Real.sin_pi, radians_zero,
        Real.cos_zero]
      norm_num
    rw [h3d, hflat]
    intro he
    have h1 := arctan2_one_neg_one_pos
    rw [he] at h1
    linarith [arctan2_neg_one_neg_one_neg]

end GeometryTheorems

noncomputable section SkyPolar

/-- Plain sky-plane polar coordinates of a pixel about `(x0, y0)`, written
from the spec's words for the round-trip comparison of claim C3 ("disk
radius/azimuth must equal plain sky-plane polar coordinates centered at
(x0, y0)"), with the pixel's sky offsets read exactly as the code's
meshgrid reads them (reversed x axis, east to the left). -/
def sky_polar (xaxis yaxis : List ℝ) (x0 y0 : ℝ) (i j : ℕ) : ℝ × ℝ :=
  let xs := xaxis.getD (xaxis.length - 1 - j) 0 - x0
  let ys := yaxis.getD i 0 - y0
  (hypot xs ys, arctan2 ys xs)

end SkyPolar

section SkyPolarTheorems

theorem radians_360_form : radians (180 + 90 + 90) = 2 * Real.pi := by
  unfold radians
  rw [show ((180 : ℝ) + 90 + 90) = 360 by norm_num]
  field_simp
  ring

/-- Claim C3 (corrected): for every center and every position angle, the
flat-disk deprojection at inclination 0 returns at every pixel a RADIUS
equal to the plain sky-plane polar radius centered at `(x0, y0)`,
independent of `PA` (the rotation is an isometry and the projection
compression factor is `cos 0 = 1`).  The AZIMUTH, however, is the polar
angle of the sky vector rotated by `-(PA + 180)` degrees -- `_rotate` adds
90 degrees to the `PA + 90` it is handed -- so it equals the plain polar
angle only when the total rotation is a full turn, e.g. at `PA = 180`; it
is not independent of `PA` (see the counterexample). -/
theorem disk_coordinates_inc_zero_polar (xaxis yaxis : List ℝ)
    (x0 y0 PA : ℝ) (i j : ℕ) :
    (disk_coordinates xaxis yaxis x0 y0 0 PA i j).1 =
      (sky_polar xaxis yaxis x0 y0 i j).1 ∧
    (disk_coordinates xaxis yaxis x0 y0 0 180 i j).2 =
      (sky_polar xaxis yaxis x0 y0 i j).2 := by
  constructor
  · simp only [disk_coordinates, sky_polar, incline_xy, hypot, radians_zero,
      Real.cos_zero, div_one]
    congr 1
    exact rotate_xy_sq_norm _ _ _
  · simp only [disk_coordinates, sky_polar, rotate_xy, incline_xy,
      radians_360_form, Real.cos_two_pi, Real.sin_two_pi, radians_zero,
      Real.cos_zero, div_one, mul_one, mul_zero, add_zero, sub_zero]

/-- Claim C3, counterexample: on a one-pixel grid with sky offset `(1, 1)`
and `x0 = y0 = 0`, the azimuth returned by the flat-disk deprojection at
inclination 0 and `PA = 0` is `arctan2(-1, -1) = -3*pi/4 < 0`, whereas the
plain sky-plane polar angle is `arctan2(1, 1) = pi/4 > 0`; moreover the
azimuth at `PA = 90` is `arctan2(1, -1) = 3*pi/4`, so the azimuth is not
independent of the position angle either. -/
theorem disk_coordinates_inc_zero_azimuth_cex :
    (disk_coordinates [1] [1] 0 0 0 0 0 0).2 ≠
      (sky_polar [1] [1] 0 0 0 0).2 ∧
    (disk_coordinates [1] [1] 0 0 0 0 0 0).2 ≠
      (disk_coordinates [1] [1] 0 0 0 90 0 0).2 := by
  have hflat0 : (disk_coordinates [1] [1] 0 0 0 0 0 0).2 =
      arctan2 (-1) (-1) := by
    simp only [disk_coordinates, rotate_xy, incline_xy, radians_pi_form,
      Real.cos_pi, Real.sin_pi, radians_zero, Real.cos_zero]
    norm_num
  have hsky : (sky_polar [1] [1] 0 0 0 0).2 = arctan2 1 1 := by
    simp [sky_polar]
  have h270 : radians (90 + 90 + 90) = Real.pi + Real.pi / 2 := by
    unfold radians
    rw [show ((90 : ℝ) + 90 + 90) = 270 by norm_num]
    field_simp
    ring
  have hflat90 : (disk_coordinates [1] [1] 0 0 0 90 0 0).2 =
      arctan2 1 (-1) := by
    simp only [disk_coordinates, rotate_xy, incline_xy, h270, radians_zero,
      Real.cos_zero, Real.cos_add, Real.sin_add, Real.cos_pi, Real.sin_pi,
      Real.cos_pi_div_two, Real.sin_pi_div_two]
    norm_num
  refine ⟨?_, ?_⟩
  · rw [hflat0, hsky]
    intro he
    have h1 := arctan2_one_one_pos
    rw [← he] at h1
    linarith [arctan2_neg_one_neg_one_neg]
  · rw [hflat0, hflat90]
    intro he
    have h1 := arctan2_one_neg_one_pos
    rw [← he] at h1
    linarith [arctan2_neg_one_neg_one_neg]

end SkyPolarTheorems

section PowerLawSurface

/-- Claim C8 (confirmed): after setting the analytical emission surface to
the power law with parameters `[0.3, 1.0]` (so `zvals = 0.3 * rvals ** 1`),
the height lookup `emission_surface` satisfies `height(2.0) = 0.6` and
`height(0) = 0`, for every stored radial grid of at least two pairwise
distinct consecutive samples: the stored heights lie on the line
`0.3 * r`, and linear interpolation (and the extrapolation used below the
first sample, e.g. at radius 0) through collinear points is exact. -/
theorem emission_surface_powerlaw_values (c : RotatedCube)
    (hl : 2 ≤ c.rvals.length) (hch : c.rvals.Chain' (· ≠ ·)) :
    ∃ c', set_emission_surface_analytical c "powerlaw".toList [3/10, 1] = some c' ∧
      emission_surface c' 2 = some (3/5) ∧ emission_surface c' 0 = some 0 := by
  refine ⟨{ c with zvals := c.rvals.map (fun r => (3/10 : ℝ) * r ^ (1 : ℝ)) },
    ?_, ?_, ?_⟩
  · unfold set_emission_surface_analytical
    rw [if_pos (by decide)]
  · have hmap : c.rvals.map (fun r => (3/10 : ℝ) * r ^ (1 : ℝ)) =
        c.rvals.map (fun r => (3/10 : ℝ) * r) :=
      List.map_congr_left (fun r _ => by rw [Real.rpow_one])
    unfold emission_surface
    rw [if_pos ⟨hl, by simp⟩]
    simp only [hmap]
    rw [zip_self_map, lininterp_linear (3/10) c.rvals hl hch 2]
    norm_num
  · have hmap : c.rvals.map (fun r => (3/10 : ℝ) * r ^ (1 : ℝ)) =
        c.rvals.map (fun r => (3/10 : ℝ) * r) :=
      List.map_congr_left (fun r _ => by rw [Real.rpow_one])
    unfold emission_surface
    rw [if_pos ⟨hl, by simp⟩]
    simp only [hmap]
    rw [zip_self_map, lininterp_linear (3/10) c.rvals hl hch 0]
    norm_num

/-- Cube with the default radial grid reduced to two samples, used to
instantiate the power-law surface lookup. -/
def cube_C : RotatedCube :=
  ⟨[0, 1], [0, 1], 0, 0, 0, true, [1, 2], [0, 0]⟩

/-- Claim C8, witness: the power-law statement applied to `cube_C`, whose
radial grid is `[1, 2]`. -/
theorem emission_surface_powerlaw_values_witness :
    (2 ≤ cube_C.rvals.length ∧ cube_C.rvals.Chain' (· ≠ ·)) ∧
    ∃ c', set_emission_surface_analytical cube_C "powerlaw".toList [3/10, 1] =
        some c' ∧
      emission_surface c' 2 = some (3/5) ∧ emission_surface c' 0 = some 0 :=
  ⟨⟨by simp [cube_C], by norm_num [cube_C]⟩,
    emission_surface_powerlaw_values cube_C (by simp [cube_C])
      (by norm_num [cube_C])⟩

end PowerLawSurface
